import Mathlib

/-!
Shallow embedding of the AWS-AutoSail repository (Go) for spec verification.

Conventions:
* Go `error` values become `Option String` (`none` = nil error, `some msg` =
  non-nil error carrying its message).
* Go `time.Duration` / wall-clock quantities become `ℚ`; the float64 backoff
  multiplication in `SafeRetry` is modelled exactly over the rationals
  (float rounding at sub-nanosecond scale is abstracted away).
* Pointer-typed SDK fields become `Option`; `aws.ToString`-style helpers
  (`str` in lightsail.go) become `Option.getD _ ""`.
-/

namespace AutoSail

/-! ### SafeRetry (src/unnamed/part_002)

```go
func SafeRetry(actionName string, retries int, baseSleep time.Duration, fn func() error) error {
    if retries < 1 { retries = 1 }
    var last error
    for i := 0; i < retries; i++ {
        if err := fn(); err == nil { return nil } else { last = err }
        time.Sleep(time.Duration(float64(baseSleep) * (1.0 + float64(i)*0.35)))
    }
    return fmt.Errorf("%s 失败：%v", actionName, last)
}
```

The wrapped closure `fn` is modelled as the sequence of results its
successive invocations would return: `fn k` is what the (k+1)-th call yields.
The embedding returns a `RetryTrace` recording the Go return value, how many
times `fn` was invoked, and the list of sleep durations taken (in order). -/

def backoffSleep (baseSleep : ℚ) (i : Nat) : ℚ :=
  baseSleep * (1 + (i : ℚ) * (35 / 100))

def fmtRetryError (actionName : String) (last : Option String) : String :=
  actionName ++ " 失败：" ++ last.getD "<nil>"

structure RetryTrace where
  result : Option String
  calls : Nat
  sleeps : List ℚ
deriving Repr, DecidableEq

def safeRetryLoop (actionName : String) (baseSleep : ℚ) (fn : Nat → Option String) :
    Nat → Nat → Option String → RetryTrace
  | _, 0, last => ⟨some (fmtRetryError actionName last), 0, []⟩
  | i, fuel + 1, _last =>
    match fn i with
    | none => ⟨none, 1, []⟩
    | some e =>
      let t := safeRetryLoop actionName baseSleep fn (i + 1) fuel (some e)
      ⟨t.result, t.calls + 1, backoffSleep baseSleep i :: t.sleeps⟩

def effRetries (retries : Int) : Nat :=
  if retries < 1 then 1 else retries.toNat

def SafeRetry (actionName : String) (retries : Int) (baseSleep : ℚ)
    (fn : Nat → Option String) : RetryTrace :=
  safeRetryLoop actionName baseSleep fn 0 (effRetries retries) none

theorem one_le_effRetries (retries : Int) : 1 ≤ effRetries retries := by
  unfold effRetries
  split
  · exact le_refl 1
  · next h => omega

theorem effRetries_of_one_le (retries : Int) (h : 1 ≤ retries) :
    effRetries retries = retries.toNat := by
  unfold effRetries
  split
  · omega
  · rfl

theorem srl_calls_le (a : String) (b : ℚ) (fn : Nat → Option String) :
    ∀ fuel i last, (safeRetryLoop a b fn i fuel last).calls ≤ fuel := by
  intro fuel
  induction fuel with
  | zero => intro i last; simp [safeRetryLoop]
  | succ m ih =>
    intro i last
    simp only [safeRetryLoop]
    cases h : fn i with
    | none => simp
    | some e =>
      simp only []
      exact Nat.succ_le_succ (ih (i + 1) (some e))

theorem srl_calls_pos (a : String) (b : ℚ) (fn : Nat → Option String) :
    ∀ fuel i last, 1 ≤ fuel → 1 ≤ (safeRetryLoop a b fn i fuel last).calls := by
  intro fuel
  cases fuel with
  | zero => intro i last h; omega
  | succ m =>
    intro i last _
    simp only [safeRetryLoop]
    cases h : fn i with
    | none => simp
    | some e => simp

theorem srl_sleeps_eq (a : String) (b : ℚ) (fn : Nat → Option String) :
    ∀ fuel i last,
      (safeRetryLoop a b fn i fuel last).sleeps =
        (List.range' i (safeRetryLoop a b fn i fuel last).sleeps.length).map
          (backoffSleep b) := by
  intro fuel
  induction fuel with
  | zero => intro i last; simp [safeRetryLoop]
  | succ m ih =>
    intro i last
    simp only [safeRetryLoop]
    cases hf : fn i with
    | none => simp
    | some e =>
      simp only [List.length_cons, List.range'_succ, List.map_cons, List.cons.injEq,
        true_and]
      exact ih (i + 1) (some e)

theorem srl_sleeps_get (a : String) (b : ℚ) (fn : Nat → Option String)
    (fuel i : Nat) (last : Option String) (j : Nat)
    (h : j < (safeRetryLoop a b fn i fuel last).sleeps.length) :
    (safeRetryLoop a b fn i fuel last).sleeps.get ⟨j, h⟩ = backoffSleep b (i + j) := by
  have hs := srl_sleeps_eq a b fn fuel i last
  have h2 : j < ((List.range' i (safeRetryLoop a b fn i fuel last).sleeps.length).map
      (backoffSleep b)).length := by
    simpa using h
  calc (safeRetryLoop a b fn i fuel last).sleeps.get ⟨j, h⟩
      = ((List.range' i (safeRetryLoop a b fn i fuel last).sleeps.length).map
          (backoffSleep b)).get ⟨j, h2⟩ := by
        apply List.get_of_eq hs
    _ = backoffSleep b (i + j) := by
        simp [List.get_eq_getElem, List.getElem_map, List.getElem_range']

theorem srl_result_none_iff (a : String) (b : ℚ) (fn : Nat → Option String) :
    ∀ fuel i last,
      (safeRetryLoop a b fn i fuel last).result = none ↔
        ∃ j, j < fuel ∧ fn (i + j) = none := by
  intro fuel
  induction fuel with
  | zero => intro i last; simp [safeRetryLoop]
  | succ m ih =>
    intro i last
    simp only [safeRetryLoop]
    cases hf : fn i with
    | none =>
      simp only [true_iff]
      exact ⟨0, Nat.succ_pos m, by simpa using hf⟩
    | some e =>
      simp only []
      rw [ih (i + 1) (some e)]
      constructor
      · rintro ⟨j, hj, hnone⟩
        exact ⟨j + 1, by omega, by rw [show i + (j + 1) = i + 1 + j by omega]; exact hnone⟩
      · rintro ⟨j, hj, hnone⟩
        cases j with
        | zero => rw [Nat.add_zero] at hnone; rw [hnone] at hf; cases hf
        | succ k =>
          exact ⟨k, by omega, by rw [show i + 1 + k = i + (k + 1) by omega]; exact hnone⟩

theorem srl_all_fail_result (a : String) (b : ℚ) (fn : Nat → Option String) :
    ∀ fuel i last, 1 ≤ fuel → (∀ j, j < fuel → fn (i + j) ≠ none) →
      (safeRetryLoop a b fn i fuel last).result =
        some (fmtRetryError a (fn (i + fuel - 1))) := by
  intro fuel
  induction fuel with
  | zero => intro i last h; omega
  | succ m ih =>
    intro i last _ hfail
    simp only [safeRetryLoop]
    cases hf : fn i with
    | none => exact absurd hf (by simpa using hfail 0 (Nat.succ_pos m))
    | some e =>
      simp only []
      cases Nat.eq_zero_or_pos m with
      | inl hm =>
        subst hm
        simp only [safeRetryLoop]
        rw [show i + (0 + 1) - 1 = i by omega, hf]
      | inr hm =>
        rw [show i + (m + 1) - 1 = i + 1 + m - 1 by omega]
        exact ih (i + 1) (some e) hm
          (fun j hj => by
            have := hfail (j + 1) (by omega)
            rwa [show i + (j + 1) = i + 1 + j by omega] at this)

theorem srl_early_stop (a : String) (b : ℚ) (fn : Nat → Option String) :
    ∀ fuel i last k, k < fuel → fn (i + k) = none →
      (∀ j, j < k → fn (i + j) ≠ none) →
      (safeRetryLoop a b fn i fuel last).calls = k + 1 := by
  intro fuel
  induction fuel with
  | zero => intro i last k hk; omega
  | succ m ih =>
    intro i last k hk hnone hfail
    simp only [safeRetryLoop]
    cases hf : fn i with
    | none =>
      cases k with
      | zero => simp
      | succ j => exact absurd hf (by simpa using hfail 0 (Nat.succ_pos j))
    | some e =>
      cases k with
      | zero => rw [Nat.add_zero] at hnone; rw [hnone] at hf; cases hf
      | succ j =>
        simp only []
        rw [ih (i + 1) (some e) j (by omega)
          (by rw [show i + 1 + j = i + (j + 1) by omega]; exact hnone)
          (fun l hl => by
            have := hfail (l + 1) (by omega)
            rwa [show i + (l + 1) = i + 1 + l by omega] at this)]

theorem srl_sleeps_length (a : String) (b : ℚ) (fn : Nat → Option String) :
    ∀ fuel i last,
      (safeRetryLoop a b fn i fuel last).sleeps.length =
        (if (safeRetryLoop a b fn i fuel last).result = none then
          (safeRetryLoop a b fn i fuel last).calls - 1
        else (safeRetryLoop a b fn i fuel last).calls) := by
  intro fuel
  induction fuel with
  | zero => intro i last; simp [safeRetryLoop]
  | succ m ih =>
    intro i last
    simp only [safeRetryLoop]
    cases hf : fn i with
    | none => simp
    | some e =>
      simp only [List.length_cons]
      rw [ih (i + 1) (some e)]
      by_cases hres : (safeRetryLoop a b fn (i + 1) m (some e)).result = none
      · have hpos : 1 ≤ (safeRetryLoop a b fn (i + 1) m (some e)).calls := by
          rcases (srl_result_none_iff a b fn m (i + 1) (some e)).mp hres with ⟨j, hj, _⟩
          exact srl_calls_pos a b fn m (i + 1) (some e) (by omega)
        rw [if_pos hres, if_pos hres]
        omega
      · rw [if_neg hres, if_neg hres]

theorem srl_blind (a : String) (b : ℚ) (fn fn2 : Nat → Option String)
    (hsame : ∀ j, (fn j).isSome = (fn2 j).isSome) :
    ∀ fuel i last last2,
      (safeRetryLoop a b fn i fuel last).calls =
        (safeRetryLoop a b fn2 i fuel last2).calls ∧
      (safeRetryLoop a b fn i fuel last).sleeps =
        (safeRetryLoop a b fn2 i fuel last2).sleeps ∧
      (safeRetryLoop a b fn i fuel last).result.isSome =
        (safeRetryLoop a b fn2 i fuel last2).result.isSome := by
  intro fuel
  induction fuel with
  | zero => intro i last last2; simp [safeRetryLoop]
  | succ m ih =>
    intro i last last2
    simp only [safeRetryLoop]
    cases hf : fn i with
    | none =>
      have h2 : fn2 i = none := by
        have := hsame i
        rw [hf] at this
        simpa using this.symm
      rw [h2]
      simp
    | some e =>
      have h2 : ∃ e2, fn2 i = some e2 := by
        have := hsame i
        rw [hf] at this
        cases hv : fn2 i with
        | none => rw [hv] at this; simp at this
        | some e2 => exact ⟨e2, rfl⟩
      rcases h2 with ⟨e2, h2⟩
      rw [h2]
      simp only [List.cons.injEq]
      rcases ih (i + 1) (some e) (some e2) with ⟨hc, hs, hr⟩
      exact ⟨by rw [hc], ⟨trivial, hs⟩, hr⟩

/-! ### Claim theorems about SafeRetry -/

/-- C1: For every call to SafeRetry(actionName, retries, baseSleep, fn) with
retries = n ≥ 1, the wrapped function fn is invoked at most n times (stopping
early on the first nil result), and the sleep taken after the i-th failed
invocation (i counted from 0) equals baseSleep * (1 + i*0.35). -/
theorem safeRetry_bounded_calls_linear_backoff (a : String) (n : Int) (b : ℚ)
    (fn : Nat → Option String) (hn : 1 ≤ n) :
    (SafeRetry a n b fn).calls ≤ n.toNat ∧
    (∀ j (h : j < (SafeRetry a n b fn).sleeps.length),
      (SafeRetry a n b fn).sleeps.get ⟨j, h⟩ = b * (1 + (j : ℚ) * (35 / 100))) ∧
    (∀ k, k < n.toNat → fn k = none → (∀ j, j < k → fn j ≠ none) →
      (SafeRetry a n b fn).calls = k + 1 ∧ (SafeRetry a n b fn).result = none) := by
  have hr : effRetries n = n.toNat := effRetries_of_one_le n hn
  refine ⟨?_, ?_, ?_⟩
  · rw [← hr]
    exact srl_calls_le a b fn _ 0 none
  · intro j h
    have := srl_sleeps_get a b fn (effRetries n) 0 none j h
    simpa [backoffSleep] using this
  · intro k hk hnone hfail
    refine ⟨?_, ?_⟩
    · exact srl_early_stop a b fn (effRetries n) 0 none k (by omega)
        (by simpa using hnone) (by intro j hj; simpa using hfail j hj)
    · exact (srl_result_none_iff a b fn (effRetries n) 0 none).mpr
        ⟨k, by omega, by simpa using hnone⟩

def fnWitnessC1 : Nat → Option String := fun k => if k = 0 then some "boom" else none

theorem safeRetry_bounded_calls_linear_backoff_witness :
    (SafeRetry "操作" 3 2 fnWitnessC1).calls ≤ (3 : Int).toNat ∧
    (∀ j (h : j < (SafeRetry "操作" 3 2 fnWitnessC1).sleeps.length),
      (SafeRetry "操作" 3 2 fnWitnessC1).sleeps.get ⟨j, h⟩ =
        2 * (1 + (j : ℚ) * (35 / 100))) ∧
    (∀ k, k < (3 : Int).toNat → fnWitnessC1 k = none →
      (∀ j, j < k → fnWitnessC1 j ≠ none) →
      (SafeRetry "操作" 3 2 fnWitnessC1).calls = k + 1 ∧
      (SafeRetry "操作" 3 2 fnWitnessC1).result = none) :=
  safeRetry_bounded_calls_linear_backoff "操作" 3 2 fnWitnessC1 (by decide)

/-- C2: SafeRetry's retry decision is blind to the error value: it returns nil
iff some invocation within the fixed iteration count returns nil; otherwise it
returns a formatted error wrapping the error of the last failed invocation, and
the retry pattern (number of calls, sleeps, success/failure) depends only on
which invocations were nil, never on the error values themselves. -/
theorem safeRetry_blind_to_error_values (a : String) (n : Int) (b : ℚ)
    (fn fn2 : Nat → Option String) :
    ((SafeRetry a n b fn).result = none ↔ ∃ j, j < effRetries n ∧ fn j = none) ∧
    ((∀ j, j < effRetries n → fn j ≠ none) →
      (SafeRetry a n b fn).result = some (fmtRetryError a (fn (effRetries n - 1)))) ∧
    ((∀ j, (fn j).isSome = (fn2 j).isSome) →
      (SafeRetry a n b fn).calls = (SafeRetry a n b fn2).calls ∧
      (SafeRetry a n b fn).sleeps = (SafeRetry a n b fn2).sleeps ∧
      (SafeRetry a n b fn).result.isSome = (SafeRetry a n b fn2).result.isSome) := by
  refine ⟨?_, ?_, ?_⟩
  · simpa using srl_result_none_iff a b fn (effRetries n) 0 none
  · intro hfail
    have := srl_all_fail_result a b fn (effRetries n) 0 none (one_le_effRetries n)
      (by intro j hj; simpa using hfail j hj)
    simpa using this
  · intro hsame
    exact srl_blind a b fn fn2 hsame (effRetries n) 0 none none

/-- C9: SafeRetry always invokes the wrapped function at least once: retries
values below 1 are coerced to 1, and a backoff sleep is performed after every
failed invocation, including the final one (so when every attempt fails the
number of sleeps equals the number of calls, and on success it is one less). -/
theorem safeRetry_at_least_once_sleeps_after_failures (a : String) (n : Int)
    (b : ℚ) (fn : Nat → Option String) :
    1 ≤ (SafeRetry a n b fn).calls ∧
    (n < 1 → effRetries n = 1) ∧
    (SafeRetry a n b fn).sleeps.length =
      (if (SafeRetry a n b fn).result = none then (SafeRetry a n b fn).calls - 1
       else (SafeRetry a n b fn).calls) := by
  refine ⟨?_, ?_, ?_⟩
  · exact srl_calls_pos a b fn _ 0 none (one_le_effRetries n)
  · intro h
    unfold effRetries
    rw [if_pos h]
  · exact srl_sleeps_length a b fn _ 0 none

/-! ### DeleteInstanceWithStaticIPCleanup (src/internal/aws/lightsail.go)

```go
func DeleteInstanceWithStaticIPCleanup(ctx context.Context, cli LightsailAPI, name string) error {
    // try detach & release any attached static ip first
    _, _ = DeletePreviousStaticIPOnlyForInstance(ctx, cli, name)

    return SafeRetry("删除实例", 8, 1200*time.Millisecond, func() error {
        _, err := cli.DeleteInstance(ctx, &lightsail.DeleteInstanceInput{InstanceName: &name})
        return err
    })
}
```

`cleanupResult` stands for the `(string, error)` pair the preceding
`DeletePreviousStaticIPOnlyForInstance` call returned; the Go code binds both
components to `_`, so the embedding takes the pair as a parameter and discards
it, and `deleteFn` is the sequence of results of the DeleteInstance SDK call. -/

def DeleteInstanceWithStaticIPCleanup (cleanupResult : String × Option String)
    (deleteFn : Nat → Option String) : RetryTrace :=
  let _ := cleanupResult
  SafeRetry "删除实例" 8 1200 deleteFn

/-- C10: DeleteInstanceWithStaticIPCleanup attempts the static-IP
detach/release cleanup first but ignores its result: the instance-deletion
call is issued (at least once, with up to 8 retries) regardless of whether the
cleanup succeeded or failed, and the function's outcome is the same for every
possible cleanup result. -/
theorem deleteInstance_ignores_cleanup_outcome (c1 c2 : String × Option String)
    (deleteFn : Nat → Option String) :
    DeleteInstanceWithStaticIPCleanup c1 deleteFn =
      DeleteInstanceWithStaticIPCleanup c2 deleteFn ∧
    1 ≤ (DeleteInstanceWithStaticIPCleanup c1 deleteFn).calls ∧
    ((DeleteInstanceWithStaticIPCleanup c1 deleteFn).result = none ↔
      ∃ j, j < 8 ∧ deleteFn j = none) := by
  have h8 : effRetries 8 = 8 := by decide
  refine ⟨rfl, ?_, ?_⟩
  · exact srl_calls_pos "删除实例" 1200 deleteFn _ 0 none (one_le_effRetries 8)
  · have := srl_result_none_iff "删除实例" 1200 deleteFn (effRetries 8) 0 none
    rw [h8] at this
    simpa using this

example : (SafeRetry "a" 3 2 fnWitnessC1) = ⟨none, 2, [2]⟩ := by
  norm_num [SafeRetry, effRetries, safeRetryLoop, fnWitnessC1, fmtRetryError, backoffSleep]
example : (SafeRetry "a" 0 2 (fun _ => some "e")) =
    ⟨some "a 失败：e", 1, [2]⟩ := by
  norm_num [SafeRetry, effRetries, safeRetryLoop, fmtRetryError, backoffSleep]
  decide
example : (SafeRetry "a" 2 10 (fun _ => some "e")) =
    ⟨some "a 失败：e", 2, [10, 27 / 2]⟩ := by
  norm_num [SafeRetry, effRetries, safeRetryLoop, fmtRetryError, backoffSleep]
  decide

/-! ### Session store (src/internal/session/session.go)

```go
func NewStore() *Store {
    st := &Store{
        m:               map[string]*Session{},
        ttl:             30 * time.Minute,
        cleanupInterval: 5 * time.Minute,
    }
    go st.cleanupLoop()
    return st
}

func (st *Store) cleanupExpired() {
    expiredBefore := time.Now().Add(-st.ttl)
    st.mu.Lock()
    defer st.mu.Unlock()
    for id, sess := range st.m {
        if sess.LastAccess().Before(expiredBefore) {
            delete(st.m, id)
        }
    }
}
```

The mutex-guarded map `m : map[string]*Session` is modelled by its extension:
a list of (session id, lastAccess) pairs; durations and instants are rationals
counted in seconds. Go's `t.Before(u)` is the strict order `t < u`. -/

structure SessionStore where
  m : List (String × ℚ)
  ttl : ℚ
  cleanupInterval : ℚ
deriving Repr

def NewStore : SessionStore :=
  { m := [], ttl := 30 * 60, cleanupInterval := 5 * 60 }

def cleanupExpired (now : ℚ) (st : SessionStore) : SessionStore :=
  let expiredBefore := now - st.ttl
  { st with m := st.m.filter (fun s => !decide (s.2 < expiredBefore)) }

/-- C7: The periodic session sweep deletes exactly the entries older than the
fixed TTL: one run of cleanupExpired removes precisely those sessions whose
last-access time is strictly before now minus the TTL (30 minutes in the store
NewStore builds), and every session accessed within the TTL remains. -/
theorem cleanupExpired_removes_exactly_expired (now : ℚ) (st : SessionStore) :
    NewStore.ttl = 30 * 60 ∧
    (∀ e : String × ℚ, e ∈ (cleanupExpired now st).m ↔
      e ∈ st.m ∧ ¬ (e.2 < now - st.ttl)) ∧
    (∀ e : String × ℚ, e ∈ st.m → now - st.ttl ≤ e.2 →
      e ∈ (cleanupExpired now st).m) := by
  refine ⟨rfl, ?_, ?_⟩
  · intro e
    simp [cleanupExpired, List.mem_filter]
  · intro e he hle
    simp only [cleanupExpired, List.mem_filter]
    exact ⟨he, by simpa using not_lt.mpr hle⟩

/-! ### sanitize (src/internal/aws/lightsail.go)

```go
func sanitize(s string) string {
    s = strings.ToLower(s)
    var b strings.Builder
    for _, r := range s {
        if (r >= 'a' && r <= 'z') || (r >= '0' && r <= '9') || r == '-' {
            b.WriteRune(r)
        }
    }
    out := b.String()
    if out == "" { return "x" }
    return out
}
```

`strings.ToLower` lowercases the string rune by rune; it is modelled by
mapping `Char.toLower` over the characters (the two agree on the ASCII range,
and the kept alphabet a-z, 0-9, '-' is pure ASCII). -/

def strToLower (s : String) : String :=
  String.mk (s.data.map Char.toLower)

def sanitizeKeep (r : Char) : Bool :=
  decide (('a' ≤ r ∧ r ≤ 'z') ∨ ('0' ≤ r ∧ r ≤ '9') ∨ r = '-')

def sanitize (s : String) : String :=
  let out := String.mk ((strToLower s).data.filter sanitizeKeep)
  if out = "" then "x" else out

/-- The name-sanitizing helper as the spec sentence words it: lowercase the
string, drop every character that is not a lowercase letter, digit or dash,
and fall back to "x" when nothing is left. Stated with the standard library's
character-class predicates, independently of the range comparisons the Go
code uses. -/
def sanitizeSpec (s : String) : String :=
  let filtered := String.mk
    ((strToLower s).data.filter (fun c => c.isLower || c.isDigit || c == '-'))
  if filtered = "" then "x" else filtered

theorem sanitizeKeep_eq_spec (c : Char) :
    sanitizeKeep c = (c.isLower || c.isDigit || c == '-') := by
  simp only [sanitizeKeep, Char.isLower, Char.isDigit, Char.le_def, ge_iff_le]
  show decide ((97 : UInt32) ≤ c.val ∧ c.val ≤ 122 ∨
    (48 : UInt32) ≤ c.val ∧ c.val ≤ 57 ∨ c = '-') = _
  rw [Bool.beq_eq_decide_eq]
  simp [Bool.or_assoc]

/-- C8: sanitize equals the spec-side description (lowercase, keep only a-z,
0-9 and dash, "x" when the filtered result is empty), and satisfies the
literal table tests of TestSanitize. -/
theorem sanitize_matches_spec_and_tests (s : String) :
    sanitize s = sanitizeSpec s ∧
    sanitize "My-Instance" = "my-instance" ∧
    sanitize "Name@123" = "name123" ∧
    sanitize "!!!" = "x" := by
  refine ⟨?_, by decide, by decide, by decide⟩
  unfold sanitize sanitizeSpec
  rw [List.filter_congr (fun c _ => sanitizeKeep_eq_spec c)]

/-! ### Credential store (src/internal/store/db.go)

The SQLite tables are modelled by their row lists. `users` carries a UNIQUE
constraint on `username`; `api_keys` has no constraint beyond the primary key.
`strings.TrimSpace` is modelled by dropping whitespace characters from both
ends of the character list (Go trims the unicode space class; the difference
is immaterial to the claims, which quantify over the trimmed value).
`bcrypt.GenerateFromPassword` is an opaque call and becomes an abstract
`hash` parameter; the AUTOINCREMENT id becomes a `nextId` parameter. -/

def trimSpace (s : String) : String :=
  String.mk (((s.data.dropWhile Char.isWhitespace).reverse.dropWhile
    Char.isWhitespace).reverse)

structure DBUser where
  id : Int
  username : String
  passwordHash : String
deriving Repr, DecidableEq

/-- EnsureUser (db.go lines 80-114): trim both inputs, reject empty ones,
return (false, nil) when a row with this username exists, otherwise hash the
password and insert a fresh row. -/
def EnsureUser (hash : String → String) (nextId : Int) (db : List DBUser)
    (username password : String) : (Bool × Option String) × List DBUser :=
  let username := trimSpace username
  let password := trimSpace password
  if username = "" ∨ password = "" then
    ((false, some "username/password required"), db)
  else
    match db.find? (fun r => r.username == username) with
    | some _ => ((false, none), db)
    | none =>
      ((true, none),
        db ++ [{ id := nextId, username := username, passwordHash := hash password }])

def dbWithAlice : List DBUser := [{ id := 1, username := "alice", passwordHash := "h" }]

/-- C5 counterexample: the database already holds user "alice", yet
EnsureUser("alice", "") returns (false, a non-nil error) — the empty-password
guard fires before the existence check — not the (false, nil) the claim
promises for every database state and every p. No row is inserted, though. -/
theorem ensureUser_existing_user_empty_password_errors :
    (∃ r ∈ dbWithAlice, r.username = trimSpace "alice") ∧
    (EnsureUser (fun p => p) 2 dbWithAlice "alice" "").1 ≠ (false, none) ∧
    (EnsureUser (fun p => p) 2 dbWithAlice "alice" "").1 =
      (false, some "username/password required") ∧
    (EnsureUser (fun p => p) 2 dbWithAlice "alice" "").2 = dbWithAlice := by
  refine ⟨⟨⟨1, "alice", "h"⟩, by decide, by decide⟩, by decide, by decide, by decide⟩

/-- C5 (amended): for every database state holding a user with the trimmed
username u, and every u, p whose trimmed forms are nonempty, EnsureUser(u, p)
returns (false, nil) and leaves the table unchanged; moreover every EnsureUser
call preserves distinctness of usernames, so no two users ever share one. -/
theorem ensureUser_existing_noop_and_unique (hash : String → String) (nextId : Int)
    (db : List DBUser) (u p : String)
    (hu : trimSpace u ≠ "") (hp : trimSpace p ≠ "")
    (hex : ∃ r ∈ db, r.username = trimSpace u) :
    EnsureUser hash nextId db u p = ((false, none), db) ∧
    (∀ (hash2 : String → String) (nid2 : Int) (db2 : List DBUser) (u2 p2 : String),
      (db2.map DBUser.username).Nodup →
      (((EnsureUser hash2 nid2 db2 u2 p2).2).map DBUser.username).Nodup) := by
  constructor
  · simp only [EnsureUser]
    rw [if_neg (by push_neg; exact ⟨hu, hp⟩)]
    have hfind : (db.find? (fun r => r.username == trimSpace u)).isSome := by
      rw [List.find?_isSome]
      rcases hex with ⟨r, hr, hname⟩
      exact ⟨r, hr, by simpa using hname⟩
    cases hcase : db.find? (fun r => r.username == trimSpace u) with
    | none => rw [hcase] at hfind; simp at hfind
    | some r => rfl
  · intro hash2 nid2 db2 u2 p2 hnodup
    simp only [EnsureUser]
    split
    · exact hnodup
    · cases hcase : db2.find? (fun r => r.username == trimSpace u2) with
      | some r => simpa using hnodup
      | none =>
        simp only [List.map_append, List.map_cons, List.map_nil]
        rw [List.nodup_append]
        refine ⟨hnodup, List.nodup_singleton _, ?_⟩
        intro a ha hb
        simp only [List.mem_singleton] at hb
        subst hb
        rcases List.mem_map.mp ha with ⟨r, hr, hname⟩
        have := List.find?_eq_none.mp hcase r hr
        simp only [beq_iff_eq] at this
        exact this hname

theorem ensureUser_existing_noop_and_unique_witness :
    EnsureUser (fun s => s) 2 dbWithAlice " alice " "pw" = ((false, none), dbWithAlice) ∧
    (∀ (hash2 : String → String) (nid2 : Int) (db2 : List DBUser) (u2 p2 : String),
      (db2.map DBUser.username).Nodup →
      (((EnsureUser hash2 nid2 db2 u2 p2).2).map DBUser.username).Nodup) :=
  ensureUser_existing_noop_and_unique (fun s => s) 2 dbWithAlice " alice " "pw"
    (by decide) (by decide) ⟨⟨1, "alice", "h"⟩, by decide, by decide⟩

/-! ### API keys (src/internal/store/db.go, api_keys table)

`ListKeys` runs `SELECT ... FROM api_keys WHERE user_id = ? ORDER BY id DESC`,
`DeleteKey` runs `DELETE FROM api_keys WHERE id = ? AND user_id = ?` (a key id
of 0 short-circuits to nil), and `UpdateKey` runs
`UPDATE api_keys SET name=?, access_key=?, secret_key=?, proxy=? WHERE id = ?
AND user_id = ?` after rejecting a zero key id or blank key material and
defaulting a blank name to the formatted current time (the `now` parameter
stands for `time.Now().Format("2006-01-02 15:04")`). The table is the row
list `db`; `created_at` is carried as its formatted text form. -/

structure KeyRow where
  id : Int
  userId : Int
  name : String
  accessKey : String
  secretKey : String
  proxy : String
  createdAt : String
deriving Repr, DecidableEq

def ListKeys (db : List KeyRow) (userID : Int) : List KeyRow :=
  (db.filter (fun r => r.userId == userID)).mergeSort (fun a b => decide (b.id ≤ a.id))

def DeleteKey (db : List KeyRow) (userID keyID : Int) : List KeyRow × Option String :=
  if keyID = 0 then (db, none)
  else (db.filter (fun r => !(r.id == keyID && r.userId == userID)), none)

def UpdateKey (now : String) (db : List KeyRow) (userID keyID : Int)
    (name accessKey secretKey proxy : String) : List KeyRow × Option String :=
  if keyID = 0 then (db, some "missing key id")
  else if trimSpace accessKey = "" ∨ trimSpace secretKey = "" then
    (db, some "missing key values")
  else
    let name := if trimSpace name = "" then now else name
    (db.map (fun r =>
      if r.id = keyID ∧ r.userId = userID then
        { r with
            name := name
            accessKey := accessKey
            secretKey := secretKey
            proxy := proxy }
      else r), none)

theorem filter_filter_of_imp {α : Type} (p q : α → Bool) (l : List α)
    (hpq : ∀ a, q a = true → p a = true) :
    (l.filter p).filter q = l.filter q := by
  induction l with
  | nil => rfl
  | cons a rest ih =>
    cases hq : q a with
    | true =>
      have hp := hpq a hq
      simp [List.filter_cons, hp, hq, ih]
    | false =>
      cases hp : p a with
      | true => simp [List.filter_cons, hp, hq, ih]
      | false => simp [List.filter_cons, hp, hq, ih]

theorem filter_map_of_fix {α : Type} (f : α → α) (q : α → Bool) (l : List α)
    (hfix : ∀ a, q a = true → f a = a) (hker : ∀ a, q (f a) = q a) :
    (l.map f).filter q = l.filter q := by
  induction l with
  | nil => rfl
  | cons a rest ih =>
    cases hq : q a with
    | true =>
      have hfa := hfix a hq
      simp [List.filter_cons, hker a, hq, hfa, ih]
    | false =>
      simp [List.filter_cons, hker a, hq, ih]

/-- C6: API keys are scoped to their owning user: ListKeys(u) returns only
keys whose UserID is u, and for any other user u2, DeleteKey(u, k) and
UpdateKey(u, k, ...) leave the set of rows owned by u2 unchanged. -/
theorem keys_scoped_to_owning_user (db : List KeyRow) (u u2 : Int) (h : u ≠ u2) :
    (∀ r ∈ ListKeys db u, r.userId = u) ∧
    (∀ kid, ((DeleteKey db u kid).1.filter (fun r => r.userId == u2)) =
      db.filter (fun r => r.userId == u2)) ∧
    (∀ now kid nm ak sk px,
      ((UpdateKey now db u kid nm ak sk px).1.filter (fun r => r.userId == u2)) =
      db.filter (fun r => r.userId == u2)) := by
  refine ⟨?_, ?_, ?_⟩
  · intro r hr
    rw [ListKeys, List.mem_mergeSort] at hr
    have := List.of_mem_filter hr
    simpa using this
  · intro kid
    rw [DeleteKey]
    split
    · rfl
    · apply filter_filter_of_imp
      intro a ha
      have hau2 : a.userId = u2 := by simpa using ha
      have : (a.userId == u) = false := by
        simp only [beq_eq_false_iff_ne, ne_eq]
        rw [hau2]
        exact fun hx => h hx.symm
      simp [this]
  · intro now kid nm ak sk px
    rw [UpdateKey]
    split
    · rfl
    · split
      · rfl
      · simp only []
        apply filter_map_of_fix
        · intro a ha
          have hau2 : a.userId = u2 := by simpa using ha
          rw [if_neg]
          rintro ⟨_, hx⟩
          exact h (hx ▸ hau2)
        · intro a
          by_cases hc : a.id = kid ∧ a.userId = u
          · rw [if_pos hc]
          · rw [if_neg hc]

def dbKeysWitness : List KeyRow :=
  [{ id := 10, userId := 1, name := "k1", accessKey := "AK1", secretKey := "SK1",
     proxy := "", createdAt := "2026-01-01 00:00:00" },
   { id := 11, userId := 2, name := "k2", accessKey := "AK2", secretKey := "SK2",
     proxy := "", createdAt := "2026-01-02 00:00:00" }]

theorem keys_scoped_to_owning_user_witness :
    (∀ r ∈ ListKeys dbKeysWitness 1, r.userId = 1) ∧
    (∀ kid, ((DeleteKey dbKeysWitness 1 kid).1.filter (fun r => r.userId == 2)) =
      dbKeysWitness.filter (fun r => r.userId == 2)) ∧
    (∀ now kid nm ak sk px,
      ((UpdateKey now dbKeysWitness 1 kid nm ak sk px).1.filter
        (fun r => r.userId == 2)) =
      dbKeysWitness.filter (fun r => r.userId == 2)) :=
  keys_scoped_to_owning_user dbKeysWitness 1 2 (by decide)

/-! ### vCPU quota lookup (src/internal/aws/quota.go)

```go
func TestVCPUQuotas(ctx context.Context, cli *servicequotas.Client) (onVal, spotVal, onName, spotName string, err error) {
    if cli == nil { return "", "", "", "", fmt.Errorf("servicequotas client is nil") }
    onOut, e1 := cli.GetServiceQuota(ctx, &servicequotas.GetServiceQuotaInput{
        ServiceCode: aws.String("ec2"), QuotaCode: aws.String(quotaCodeOnDemandStdVcpu)})
    if e1 == nil && onOut != nil && onOut.Quota != nil {
        onName = aws.ToString(onOut.Quota.QuotaName)
        onVal = floatPtrToString(onOut.Quota.Value)
    }
    spotOut, e2 := cli.GetServiceQuota(ctx, &servicequotas.GetServiceQuotaInput{
        ServiceCode: aws.String("ec2"), QuotaCode: aws.String(quotaCodeSpotStdVcpu)})
    if e2 == nil && spotOut != nil && spotOut.Quota != nil {
        spotName = aws.ToString(spotOut.Quota.QuotaName)
        spotVal = floatPtrToString(spotOut.Quota.Value)
    }
    if onVal == "" && spotVal == "" {
        return "", "", "", "", fmt.Errorf("配额未返回（可能无权限/region不对/网络或代理问题）：onDemandErr=%v; spotErr=%v", e1, e2)
    }
    return onVal, spotVal, onName, spotName, nil
}
```

The SDK client becomes a function from the request input to the `(output,
error)` pair the call returns; quota values (`*float64` in the SDK) are
rational. The identical name/value extraction guard the Go code writes out
twice (for the on-demand and the spot lookup) is factored into
`quotaNameVal`. -/

def quotaCodeOnDemandStdVcpu : String := "L-1216C47A"

def quotaCodeSpotStdVcpu : String := "L-34B43A08"

structure SqQuota where
  quotaName : Option String
  value : Option ℚ

structure GetServiceQuotaOutput where
  quota : Option SqQuota

structure GetServiceQuotaInput where
  serviceCode : Option String
  quotaCode : Option String

structure ServiceQuotasClient where
  getServiceQuota : GetServiceQuotaInput → Option GetServiceQuotaOutput × Option String

/-- floatPtrToString (quota.go): nil becomes "", a whole number prints without
a fractional part, anything else in plain decimal-style notation. -/
def floatPtrToString : Option ℚ → String
  | none => ""
  | some f => if f.den = 1 then toString f.num else toString f

/-- Go fmt's rendering of an error in %v: "<nil>" for a nil error. -/
def fmtGoErr : Option String → String
  | none => "<nil>"
  | some e => e

def onDemandQuotaInput : GetServiceQuotaInput :=
  { serviceCode := some "ec2", quotaCode := some quotaCodeOnDemandStdVcpu }

def spotQuotaInput : GetServiceQuotaInput :=
  { serviceCode := some "ec2", quotaCode := some quotaCodeSpotStdVcpu }

/-- The `if eK == nil && out != nil && out.Quota != nil { name = ...; val = ... }`
block (starting from the Go zero values "", ""). -/
def quotaNameVal : Option GetServiceQuotaOutput × Option String → String × String
  | (some out, none) =>
    match out.quota with
    | some q => (q.quotaName.getD "", floatPtrToString q.value)
    | none => ("", "")
  | _ => ("", "")

structure VCPUQuotasResult where
  onVal : String
  spotVal : String
  onName : String
  spotName : String
  err : Option String
deriving Repr, DecidableEq

def TestVCPUQuotas (cli : Option ServiceQuotasClient) : VCPUQuotasResult :=
  match cli with
  | none => ⟨"", "", "", "", some "servicequotas client is nil"⟩
  | some c =>
    let onPair := c.getServiceQuota onDemandQuotaInput
    let (onName, onVal) := quotaNameVal onPair
    let spotPair := c.getServiceQuota spotQuotaInput
    let (spotName, spotVal) := quotaNameVal spotPair
    if onVal = "" ∧ spotVal = "" then
      ⟨"", "", "", "",
        some ("配额未返回（可能无权限/region不对/网络或代理问题）：onDemandErr=" ++
          fmtGoErr onPair.2 ++ "; spotErr=" ++ fmtGoErr spotPair.2)⟩
    else ⟨onVal, spotVal, onName, spotName, none⟩

/-- C3 counterexample client: the on-demand GetServiceQuota call fails with
AccessDenied, the spot call succeeds with value 5. -/
def quotaCliOneError : ServiceQuotasClient :=
  { getServiceQuota := fun inp =>
      if inp.quotaCode = some quotaCodeOnDemandStdVcpu then (none, some "AccessDenied")
      else (some { quota := some { quotaName := some "Spot quota", value := some 5 } },
        none) }

theorem quotaNameVal_of_err (pr : Option GetServiceQuotaOutput × Option String)
    (h : pr.2.isSome) : (quotaNameVal pr).2 = "" := by
  rcases pr with ⟨o, e⟩
  cases e with
  | none => simp at h
  | some e2 => cases o <;> rfl

/-- C3 counterexample: a client whose on-demand GetServiceQuota call returns
the error AccessDenied while the spot call succeeds with value 5 makes
TestVCPUQuotas return a nil error (with the spot value filled in), so an
underlying GetServiceQuota error does not imply a non-nil result. -/
theorem testVCPUQuotas_masks_single_error :
    (quotaCliOneError.getServiceQuota onDemandQuotaInput).2 = some "AccessDenied" ∧
    (TestVCPUQuotas (some quotaCliOneError)).err = none ∧
    (TestVCPUQuotas (some quotaCliOneError)).spotVal = "5" := by
  refine ⟨rfl, ?_, ?_⟩ <;> decide

/-- C3 (amended): TestVCPUQuotas returns a non-nil formatted error exactly
when neither lookup produced a value string — in particular whenever both
GetServiceQuota calls return errors, and when the client is nil; an error
from just one call is masked by a value from the other. -/
theorem testVCPUQuotas_err_iff_no_value (cli : ServiceQuotasClient) :
    ((TestVCPUQuotas (some cli)).err = none ↔
      ¬((quotaNameVal (cli.getServiceQuota onDemandQuotaInput)).2 = "" ∧
        (quotaNameVal (cli.getServiceQuota spotQuotaInput)).2 = "")) ∧
    ((cli.getServiceQuota onDemandQuotaInput).2.isSome ∧
        (cli.getServiceQuota spotQuotaInput).2.isSome →
      (TestVCPUQuotas (some cli)).err.isSome) ∧
    (TestVCPUQuotas none).err.isSome := by
  refine ⟨?_, ?_, ?_⟩
  · simp only [TestVCPUQuotas]
    by_cases hc : (quotaNameVal (cli.getServiceQuota onDemandQuotaInput)).2 = "" ∧
        (quotaNameVal (cli.getServiceQuota spotQuotaInput)).2 = ""
    · rw [if_pos hc]
      simp [hc]
    · rw [if_neg hc]
      simp [hc]
  · rintro ⟨h1, h2⟩
    simp only [TestVCPUQuotas]
    rw [if_pos ⟨quotaNameVal_of_err _ h1, quotaNameVal_of_err _ h2⟩]
    rfl
  · rfl

/-! ### ListInstances (src/internal/aws/lightsail.go)

```go
func ListInstances(ctx context.Context, cli LightsailAPI) ([]InstanceView, error) {
    out, err := cli.GetInstances(ctx, &lightsail.GetInstancesInput{})
    if err != nil {
        return nil, fmt.Errorf("拉取实例失败：%v", err)
    }
    // static ips
    sipOut, _ := cli.GetStaticIps(ctx, &lightsail.GetStaticIpsInput{})
    staticMap := map[string]string{}
    if sipOut != nil {
        for _, si := range sipOut.StaticIps {
            if si.AttachedTo != nil && si.IpAddress != nil {
                if si.IsAttached == nil || *si.IsAttached {
                    staticMap[*si.AttachedTo] = *si.IpAddress
                }
            }
        }
    }
    var list []InstanceView
    for _, ins := range out.Instances { ... }
    return list, nil
}
```

The two SDK calls take constant (empty) inputs, so the client is the pair of
results they would return, each an `Except` (`.error` = non-nil Go error with
nil output, `.ok` = nil error with its output). `sipOut, _ :=` discards the
GetStaticIps error, keeping the possibly-nil output: that is `.toOption`.
The Go string map is modelled by its lookup function (missing key = ""), and
assignment during the loop overwrites, which the fold reproduces.
`ins.Location` is dereferenced unconditionally by the code, so the location
is embedded as a plain field; `ins.CreatedAt.Format(...)` is carried as an
already-formatted optional string. -/

structure ResourceLocation where
  availabilityZone : Option String

structure InstanceStateInfo where
  name : Option String

structure LsInstance where
  name : Option String
  state : Option InstanceStateInfo
  publicIpAddress : Option String
  ipv6Addresses : List String
  location : ResourceLocation
  bundleId : Option String
  createdAt : Option String

structure GetInstancesOutput where
  instances : List LsInstance

structure StaticIp where
  name : Option String
  ipAddress : Option String
  attachedTo : Option String
  isAttached : Option Bool

structure GetStaticIpsOutput where
  staticIps : List StaticIp

structure LightsailAPI where
  getInstances : Except String GetInstancesOutput
  getStaticIps : Except String GetStaticIpsOutput

structure InstanceView where
  Name : String
  State : String
  PublicIPv4 : String
  PublicIPv6 : String
  StaticIPv4 : String
  Zone : String
  BundleID : String
  Created : String
deriving Repr, DecidableEq

/-- The `str` helper of lightsail.go: nil-safe pointer dereference. -/
def str (p : Option String) : String := p.getD ""

def buildStaticMap (sips : List StaticIp) : String → String :=
  sips.foldl
    (fun m si =>
      match si.attachedTo, si.ipAddress with
      | some att, some ip =>
        if si.isAttached = none ∨ si.isAttached = some true then
          fun k => if k = att then ip else m k
        else m
      | _, _ => m)
    (fun _ => "")

def viewOfInstance (staticMap : String → String) (ins : LsInstance) : InstanceView :=
  let name := str ins.name
  { Name := name
    State := str (ins.state.bind InstanceStateInfo.name)
    PublicIPv4 := str ins.publicIpAddress
    PublicIPv6 := ins.ipv6Addresses.headD ""
    StaticIPv4 := staticMap name
    Zone := str ins.location.availabilityZone
    BundleID := str ins.bundleId
    Created := str ins.createdAt }

def ListInstances (cli : LightsailAPI) : Except String (List InstanceView) :=
  match cli.getInstances with
  | .error err => .error ("拉取实例失败：" ++ err)
  | .ok out =>
    let staticMap :=
      match cli.getStaticIps.toOption with
      | some sipOut => buildStaticMap sipOut.staticIps
      | none => fun _ => ""
    .ok (out.instances.map (viewOfInstance staticMap))

/-- C4 counterexample client: GetInstances succeeds (no instances),
GetStaticIps fails. -/
def lightsailCliStaticIpError : LightsailAPI :=
  { getInstances := .ok { instances := [] }
    getStaticIps := .error "boom" }

/-- C4 counterexample: GetStaticIps returns an error, yet ListInstances
returns a nil error (the `sipOut, _ :=` assignment throws the error away),
so not every failing AWS call inside ListInstances surfaces to the caller. -/
theorem listInstances_ignores_staticIps_error :
    lightsailCliStaticIpError.getStaticIps = .error "boom" ∧
    ListInstances lightsailCliStaticIpError = .ok [] := by
  exact ⟨rfl, rfl⟩

/-- C4 (amended): if GetInstances returns an error, ListInstances returns a
non-nil error wrapping it with the localized 拉取实例失败 message, and it
returns a nil error whenever GetInstances succeeds; an error from the
GetStaticIps call is ignored (it only leaves the static-IP column empty). -/
theorem listInstances_wraps_getInstances_error (cli : LightsailAPI) :
    (∀ e, cli.getInstances = .error e →
      ListInstances cli = .error ("拉取实例失败：" ++ e)) ∧
    (∀ out, cli.getInstances = .ok out →
      ListInstances cli =
        .ok (out.instances.map (viewOfInstance
          (match cli.getStaticIps.toOption with
           | some sipOut => buildStaticMap sipOut.staticIps
           | none => fun _ => "")))) ∧
    ((∃ l, ListInstances cli = .ok l) ↔ ∃ out, cli.getInstances = .ok out) := by
  refine ⟨?_, ?_, ?_⟩
  · intro e he
    simp [ListInstances, he]
  · intro out hout
    simp [ListInstances, hout]
  · constructor
    · rintro ⟨l, hl⟩
      simp only [ListInstances] at hl
      cases hcase : cli.getInstances with
      | error e => rw [hcase] at hl; cases hl
      | ok out => exact ⟨out, rfl⟩
    · rintro ⟨out, hout⟩
      simp [ListInstances, hout]
